import Mathlib

/-!
Verification of the Sudoku puzzle-generation core of this repository
(`utils/sudokuLogic` in the app source).  The grid is embedded as a list of
rows of naturals (`0` = empty cell), matching the `number[][]` type of the
source; in-place mutation is embedded as explicit state passing (each JS
mutation of `grid` becomes a new `Grid` value threaded through); `Math.random`
is embedded as an explicit finite stream of pre-drawn naturals (`RSrc`), with
`Math.floor(Math.random() * n)` reading the next element modulo `n`; the
unbounded backtracking recursion of `solveGrid`/`countSolutions` is embedded
with a fuel parameter large enough (82) that on a 9 x 9 grid the fuel can
never run out (recursion depth is at most one more than the number of empty
cells among the 81 scanned positions).
-/

set_option maxRecDepth 4000

/-- A grid is a list of rows of naturals, `0` meaning empty
(source: `type Grid = number[][]`). -/
abbrev Grid := List (List Nat)

/-- Read `grid[r][c]`; out-of-range reads default to `0` (never happens for
the 9 x 9 grids built by the code). -/
def cell (g : Grid) (r c : Nat) : Nat := (g.getD r []).getD c 0

/-- Write `grid[r][c] = v` as a functional update (the JS in-place mutation). -/
def setCell (g : Grid) (r c v : Nat) : Grid := g.set r ((g.getD r []).set c v)

/-- Source `getEmptyGrid`: a 9 x 9 grid of zeros. -/
def getEmptyGrid : Grid := List.replicate 9 (List.replicate 9 0)

/-- Well-formedness: the grid really is 9 x 9 (always true for grids built by
the code, which start from `getEmptyGrid` or a copy of its descendants). -/
def WF (g : Grid) : Prop := g.length = 9 ∧ ∀ r < 9, (g.getD r []).length = 9

instance : DecidablePred WF := fun g => by unfold WF; infer_instance

-- ## generic list lemmas about `set`/`getD`

theorem list_set_oob {α : Type} (l : List α) (n : Nat) (a : α)
    (h : l.length ≤ n) : l.set n a = l := by
  induction l generalizing n with
  | nil => rfl
  | cons x xs ih =>
    cases n with
    | zero => simp at h
    | succ m =>
      simp only [List.length_cons, Nat.succ_le_succ_iff] at h
      simp [List.set, ih m h]

theorem list_getD_set_self {α : Type} (l : List α) (n : Nat) (a d : α) :
    (l.set n a).getD n d = if n < l.length then a else d := by
  induction l generalizing n with
  | nil => simp [List.set]
  | cons x xs ih =>
    cases n with
    | zero => simp [List.set, List.getD]
    | succ m =>
      simp only [List.set, List.getD_cons_succ, List.length_cons, ih m,
        Nat.succ_lt_succ_iff]

theorem list_getD_set_ne {α : Type} (l : List α) (n m : Nat) (a d : α)
    (h : n ≠ m) : (l.set n a).getD m d = l.getD m d := by
  induction l generalizing n m with
  | nil => rfl
  | cons x xs ih =>
    cases n with
    | zero =>
      cases m with
      | zero => exact absurd rfl h
      | succ k => simp [List.set]
    | succ n' =>
      cases m with
      | zero => simp [List.set]
      | succ k =>
        simp only [List.set, List.getD_cons_succ]
        exact ih n' k (fun hh => h (by rw [hh]))

theorem list_set_getD_self {α : Type} (l : List α) (n : Nat) (d : α) :
    l.set n (l.getD n d) = l := by
  induction l generalizing n with
  | nil => rfl
  | cons x xs ih =>
    cases n with
    | zero => rw [List.getD_cons_zero]; rfl
    | succ m =>
      rw [List.getD_cons_succ]
      show x :: xs.set m (xs.getD m d) = x :: xs
      rw [ih]

theorem list_mem_set {α : Type} {l : List α} {n : Nat} {a x : α}
    (h : x ∈ l.set n a) : x ∈ l ∨ x = a := by
  induction l generalizing n with
  | nil => simp at h
  | cons y ys ih =>
    cases n with
    | zero =>
      rcases List.mem_cons.mp h with h1 | h1
      · exact Or.inr h1
      · exact Or.inl (List.mem_cons_of_mem _ h1)
    | succ m =>
      rcases List.mem_cons.mp h with h1 | h1
      · exact Or.inl (h1 ▸ List.mem_cons_self _ _)
      · rcases ih h1 with h2 | h2
        · exact Or.inl (List.mem_cons_of_mem _ h2)
        · exact Or.inr h2

-- ## grid update lemmas

theorem cell_setCell_ne (g : Grid) (r c r' c' v : Nat)
    (h : ¬(r' = r ∧ c' = c)) : cell (setCell g r c v) r' c' = cell g r' c' := by
  unfold cell setCell
  by_cases hr : r = r'
  · subst hr
    have hc : c ≠ c' := fun hcc => h ⟨rfl, hcc.symm⟩
    rw [list_getD_set_self]
    by_cases hlen : r < g.length
    · rw [if_pos hlen, list_getD_set_ne _ _ _ _ _ hc]
    · rw [if_neg hlen, List.getD_eq_default g [] (by omega)]
  · rw [list_getD_set_ne _ _ _ _ _ hr]

theorem setCell_setCell (g : Grid) (r c a b : Nat) :
    setCell (setCell g r c a) r c b = setCell g r c b := by
  unfold setCell
  by_cases hlen : r < g.length
  · rw [List.set_set, list_getD_set_self, if_pos hlen, List.set_set]
  · have e : ∀ R : List Nat, g.set r R = g := fun R => list_set_oob g r R (by omega)
    simp only [e]

theorem setCell_cell (g : Grid) (r c : Nat) :
    setCell g r c (cell g r c) = g := by
  unfold setCell cell
  rw [list_set_getD_self, list_set_getD_self]

theorem restore_eq (g : Grid) (r c : Nat) :
    setCell (setCell g r c 0) r c (cell g r c) = g := by
  rw [setCell_setCell, setCell_cell]

theorem cell_setCell_self (g : Grid) (r c v : Nat) :
    cell (setCell g r c v) r c = v ∨ cell (setCell g r c v) r c = cell g r c := by
  unfold cell setCell
  by_cases hlen : r < g.length
  · rw [list_getD_set_self, if_pos hlen, list_getD_set_self]
    by_cases hc : c < (g.getD r []).length
    · rw [if_pos hc]; exact Or.inl rfl
    · rw [if_neg hc]
      right
      rw [List.getD_eq_default _ _ (by omega)]
  · right
    have e : ∀ R : List Nat, g.set r R = g := fun R => list_set_oob g r R (by omega)
    simp only [e]

theorem WF_setCell {g : Grid} (hw : WF g) (r c v : Nat) : WF (setCell g r c v) := by
  obtain ⟨h9, hrow⟩ := hw
  refine ⟨by unfold setCell; rw [List.length_set]; exact h9, ?_⟩
  intro r' hr'
  unfold setCell
  by_cases hr : r = r'
  · subst hr
    have hlen : r < g.length := by omega
    rw [list_getD_set_self, if_pos hlen, List.length_set]
    exact hrow r hr'
  · rw [list_getD_set_ne _ _ _ _ _ hr]
    exact hrow r' hr'

theorem cell_setCell_self_of_WF {g : Grid} (hw : WF g) {r c : Nat}
    (hr : r < 9) (hc : c < 9) (v : Nat) : cell (setCell g r c v) r c = v := by
  obtain ⟨h9, hrow⟩ := hw
  unfold cell setCell
  have hlen : r < g.length := by omega
  have hclen : c < (g.getD r []).length := by rw [hrow r hr]; exact hc
  rw [list_getD_set_self, if_pos hlen, list_getD_set_self, if_pos hclen]

theorem WF_getEmptyGrid : WF getEmptyGrid := by
  constructor
  · rfl
  · intro r hr
    unfold getEmptyGrid
    interval_cases r <;> rfl

-- ## the source's core operations

/-- Source `isSafe(grid, row, col, num)`: `num` may be placed at `(row, col)`
iff it appears nowhere in row `row`, nowhere in column `col`, and nowhere in
the 3 x 3 box containing `(row, col)` (box corner `row - row % 3`,
`col - col % 3`).  The JS early-`return false` scans are embedded as `List.all`
over the same index ranges. -/
def isSafe (grid : Grid) (row col num : Nat) : Bool :=
  ((List.range 9).all fun x =>
    !(cell grid row x == num) && !(cell grid x col == num)) &&
  ((List.range 3).all fun i => (List.range 3).all fun j =>
    !(cell grid (i + (row - row % 3)) (j + (col - col % 3)) == num))

/-- The row-major scan for the first empty cell shared by `solveGrid` and
`countSolutions` in the source (both scan `i`, `j` over `0..8` and stop at the
first `grid[i][j] === 0`). -/
def findEmpty (g : Grid) : Option (Nat × Nat) :=
  (List.range 9).findSome? fun i =>
    (List.range 9).findSome? fun j =>
      if cell g i j = 0 then some (i, j) else none

/-- The candidate loop of `solveGrid`: try the numbers of `nums` (the source
iterates `num = 1..9` in ascending order) at the empty cell `(row, col)`.
`rec` is the recursive solver call at one fuel step lower.  On a failed
recursive call the source assigns `grid[row][col] = 0` on the grid state
returned by the recursion and continues with the next candidate. -/
def tryNums (rec : Grid → Bool × Grid) (row col : Nat) :
    List Nat → Grid → Bool × Grid
  | [], g => (false, g)
  | num :: rest, g =>
    if isSafe g row col num then
      match rec (setCell g row col num) with
      | (true, g2) => (true, g2)
      | (false, g2) => tryNums rec row col rest (setCell g2 row col 0)
    else tryNums rec row col rest g

/-- Source `solveGrid`, with a fuel parameter bounding the recursion depth.
Each recursive call is made on a grid with one more filled cell, so depth is
at most (number of empty cells among the 81 scanned positions) + 1 <= 82, and
with fuel 82 the `0` branch is unreachable for the grids the code builds. -/
def solveGridAux : Nat → Grid → Bool × Grid
  | 0, g => (false, g)
  | fuel + 1, g =>
    match findEmpty g with
    | none => (true, g)
    | some (row, col) =>
      tryNums (fun h => solveGridAux fuel h) row col (List.range' 1 9) g

/-- Source `solveGrid(grid)`: returns the success flag and the final in-place
state of the grid. -/
def solveGrid (g : Grid) : Bool × Grid := solveGridAux 82 g

/-- The candidate loop of `countSolutions`: for each `num` of `nums`, if safe,
place it, recurse (threading the shared counter `count.val`), then undo the
placement (`grid[row][col] = 0`); the loop never breaks early. -/
def countNums (rec : Grid → Nat → Nat × Grid) (row col : Nat) :
    List Nat → Grid → Nat → Nat × Grid
  | [], g, cnt => (cnt, g)
  | num :: rest, g, cnt =>
    if isSafe g row col num then
      match rec (setCell g row col num) cnt with
      | (c2, g2) => countNums rec row col rest (setCell g2 row col 0) c2
    else countNums rec row col rest g cnt

/-- Source `countSolutions(grid, count)`, fuel-bounded like `solveGridAux`.
Returns the final counter value together with the final (restored) grid
state; the source returns `count.val` and mutates `grid` in place. -/
def countSolutionsAux : Nat → Grid → Nat → Nat × Grid
  | 0, g, cnt => (cnt, g)
  | fuel + 1, g, cnt =>
    if cnt > 1 then (cnt, g)
    else
      match findEmpty g with
      | none => (cnt + 1, g)
      | some (row, col) =>
        countNums (fun h c => countSolutionsAux fuel h c) row col
          (List.range' 1 9) g cnt

/-- Source `countSolutions(grid, count = {val: 0})`: the returned counter
value (the grid is restored on return, see `countSolutionsAux_grid`). -/
def countSolutions (g : Grid) (cnt : Nat) : Nat := (countSolutionsAux 82 g cnt).1

/-- Source `isSafeBox(grid, rowStart, colStart, num)`: `num` absent from the
3 x 3 box with top-left corner `(rowStart, colStart)`. -/
def isSafeBox (grid : Grid) (rowStart colStart num : Nat) : Bool :=
  (List.range 3).all fun i => (List.range 3).all fun j =>
    !(cell grid (rowStart + i) (colStart + j) == num)

/-- The `do { num = Math.floor(Math.random()*9) + 1 } while (!isSafeBox(...))`
loop of `fillBox`: keep drawing from the random stream until the drawn number
is safe for the box; `none` when the finite stream runs out (the real
`Math.random` never does). -/
def drawSafeNum (g : Grid) (row col : Nat) : List Nat → Option (Nat × List Nat)
  | [] => none
  | r :: rest =>
    if isSafeBox g row col (r % 9 + 1) then some (r % 9 + 1, rest)
    else drawSafeNum g row col rest

/-- The `(i, j)` iteration order of the two nested `for` loops in `fillBox`. -/
def boxOffsets : List (Nat × Nat) :=
  (List.range 3).flatMap fun i => (List.range 3).map fun j => (i, j)

/-- Body of source `fillBox(grid, row, col)`: fill the nine cells of the box in
row-major offset order, each with a freshly drawn box-safe number. -/
def fillBoxCells (row col : Nat) :
    List (Nat × Nat) → Grid → List Nat → Option (Grid × List Nat)
  | [], g, rs => some (g, rs)
  | (i, j) :: rest, g, rs => do
    let (num, rs1) ← drawSafeNum g row col rs
    fillBoxCells row col rest (setCell g (row + i) (col + j) num) rs1

/-- Source `fillBox(grid, row, col)`. -/
def fillBox (g : Grid) (row col : Nat) (rs : List Nat) :
    Option (Grid × List Nat) :=
  fillBoxCells row col boxOffsets g rs

/-- Source `generateFullBoard()`: fill the three diagonal boxes (the loop
`for i = 0; i < 9; i += 3` unrolled to `i = 0, 3, 6`), then `solveGrid` the
rest.  The boolean result of `solveGrid` is ignored by the source; the
post-solve grid state is returned either way. -/
def generateFullBoard (rs : List Nat) : Option (Grid × List Nat) := do
  let (g1, rs1) ← fillBox getEmptyGrid 0 0 rs
  let (g2, rs2) ← fillBox g1 3 3 rs1
  let (g3, rs3) ← fillBox g2 6 6 rs2
  pure ((solveGrid g3).2, rs3)

/-- The `positions` array of `generateSudokuPuzzle`: all 81 coordinates in
row-major order. -/
def allPositions : List (Nat × Nat) :=
  (List.range 9).flatMap fun r => (List.range 9).map fun c => (r, c)

/-- The destructuring swap `[positions[i], positions[j]] = [positions[j],
positions[i]]`. -/
def swapAt (l : List (Nat × Nat)) (i j : Nat) : List (Nat × Nat) :=
  (l.set i (l.getD j (0, 0))).set j (l.getD i (0, 0))

/-- The Fisher–Yates loop `for (i = positions.length - 1; i > 0; i--)` of
`generateSudokuPuzzle`; the argument is the current loop index `i`, and
`j = Math.floor(Math.random() * (i + 1))` reads the stream modulo `i + 1`. -/
def shuffleAux : Nat → List (Nat × Nat) → List Nat → Option (List (Nat × Nat) × List Nat)
  | 0, l, rs => some (l, rs)
  | i + 1, l, rs =>
    match rs with
    | [] => none
    | r :: rest => shuffleAux i (swapAt l (i + 1) (r % (i + 2))) rest

/-- The removal loop of `generateSudokuPuzzle`: walk the shuffled positions;
stop when `cellsToRemove` hits 0; skip already-empty cells; tentatively zero a
cell and keep the removal only if `countSolutions` (on a copy, with a fresh
counter) returns exactly 1, otherwise restore the backup, decrement the
attempt budget, and stop early when it reaches 0 while cells remain to remove.
Counters are `Nat`; since the source only ever decrements a positive budget
and compares with 0, the truncated arithmetic agrees with the JS numbers.
Returns the final puzzle together with the final `attempts` and
`cellsToRemove` values. -/
def removeCells : List (Nat × Nat) → Grid → Nat → Nat → Grid × Nat × Nat
  | [], puzzle, attempts, toRemove => (puzzle, attempts, toRemove)
  | (r, c) :: rest, puzzle, attempts, toRemove =>
    if toRemove ≤ 0 then (puzzle, attempts, toRemove)
    else
      let backup := cell puzzle r c
      if backup = 0 then removeCells rest puzzle attempts toRemove
      else
        let p1 := setCell puzzle r c 0
        if countSolutions p1 0 ≠ 1 then
          let restored := setCell p1 r c backup
          if attempts - 1 ≤ 0 ∧ 0 < toRemove then (restored, attempts - 1, toRemove)
          else removeCells rest restored (attempts - 1) toRemove
        else removeCells rest p1 attempts (toRemove - 1)

/-- Source `generateSudokuPuzzle(cluesCount)`: build a full board, copy it
(value semantics make the copy implicit), shuffle the 81 positions, then run
the removal loop with budget `5` if `cluesCount > 25` else `20` and
`cellsToRemove = 81 - cluesCount` (truncated; a negative JS value and the
truncated 0 both stop the loop immediately). -/
def generateSudokuPuzzle (cluesCount : Nat) (rs : List Nat) :
    Option (Grid × Grid) := do
  let (solution, rs1) ← generateFullBoard rs
  let (shuffled, _) ← shuffleAux (allPositions.length - 1) allPositions rs1
  let attempts := if cluesCount > 25 then 5 else 20
  let cellsToRemove := 81 - cluesCount
  pure ((removeCells shuffled solution attempts cellsToRemove).1, solution)

/-- The same run as `generateSudokuPuzzle`, exposing the final internal state
`(puzzle, attempts, cellsToRemove)` of the removal loop (used to state which
exit path a run took). -/
def generationTrace (cluesCount : Nat) (rs : List Nat) :
    Option (Grid × Nat × Nat) := do
  let (solution, rs1) ← generateFullBoard rs
  let (shuffled, _) ← shuffleAux (allPositions.length - 1) allPositions rs1
  let attempts := if cluesCount > 25 then 5 else 20
  let cellsToRemove := 81 - cluesCount
  pure (removeCells shuffled solution attempts cellsToRemove)

/-- Source `deepCopyGrid`: the identity under value semantics. -/
def deepCopyGrid (g : Grid) : Grid := g

-- ## spec-side predicates (stated from the specification's vocabulary)

/-- Every scanned cell of the 9 x 9 grid is non-zero ("fully populated"). -/
def isCompleteGrid (g : Grid) : Prop := ∀ r < 9, ∀ c < 9, cell g r c ≠ 0

instance : DecidablePred isCompleteGrid := fun g => by
  unfold isCompleteGrid; infer_instance

/-- Number of occurrences of `v` in row `r`. -/
def rowOcc (g : Grid) (r v : Nat) : Nat :=
  ((Finset.range 9).filter fun c => cell g r c = v).card

/-- Number of occurrences of `v` in column `c`. -/
def colOcc (g : Grid) (c v : Nat) : Nat :=
  ((Finset.range 9).filter fun r => cell g r c = v).card

/-- Number of occurrences of `v` in box `b` (boxes numbered row-major 0..8;
cell `k` of box `b` is at row `3*(b/3) + k/3`, column `3*(b%3) + k%3`). -/
def boxOcc (g : Grid) (b v : Nat) : Nat :=
  ((Finset.range 9).filter fun k =>
    cell g (3 * (b / 3) + k / 3) (3 * (b % 3) + k % 3) = v).card

/-- The spec's notion of a complete valid grid: every cell non-zero and every
row, column and box contains each value 1..9 exactly once. -/
def isValidComplete (g : Grid) : Prop :=
  isCompleteGrid g ∧ ∀ v < 10, 1 ≤ v →
    (∀ r < 9, rowOcc g r v = 1) ∧ (∀ c < 9, colOcc g c v = 1) ∧
    (∀ b < 9, boxOcc g b v = 1)

instance : DecidablePred isValidComplete := fun g => by
  unfold isValidComplete; infer_instance

/-- Number of clues (non-zero cells) of a grid. -/
def clueCount (g : Grid) : Nat :=
  allPositions.countP fun q => !(cell g q.1 q.2 == 0)

/-- Value `num` appears among the entries of row `row`. -/
def valueInRow (g : Grid) (row num : Nat) : Prop := ∃ c < 9, cell g row c = num

/-- Value `num` appears among the entries of column `col`. -/
def valueInCol (g : Grid) (col num : Nat) : Prop := ∃ r < 9, cell g r col = num

/-- Value `num` appears in the 3 x 3 box containing `(row, col)`. -/
def valueInBox (g : Grid) (row col num : Nat) : Prop :=
  ∃ i < 3, ∃ j < 3, cell g (3 * (row / 3) + i) (3 * (col / 3) + j) = num

-- ## basic facts about findEmpty

theorem list_findSome?_some {α β : Type} {f : α → Option β} {l : List α} {b : β}
    (h : l.findSome? f = some b) : ∃ a ∈ l, f a = some b := by
  induction l with
  | nil => simp [List.findSome?] at h
  | cons x xs ih =>
    rw [List.findSome?_cons] at h
    cases hx : f x with
    | none =>
      rw [hx] at h
      obtain ⟨a, ha, hfa⟩ := ih h
      exact ⟨a, List.mem_cons_of_mem _ ha, hfa⟩
    | some y =>
      rw [hx] at h
      have hb : some y = some b := h
      exact ⟨x, List.mem_cons_self x xs, hx.trans hb⟩

theorem findEmpty_eq_none_iff (g : Grid) :
    findEmpty g = none ↔ isCompleteGrid g := by
  unfold findEmpty isCompleteGrid
  rw [List.findSome?_eq_none_iff]
  constructor
  · intro h r hr c hc hcell
    have h1 := h r (List.mem_range.mpr hr)
    rw [List.findSome?_eq_none_iff] at h1
    have h2 := h1 c (List.mem_range.mpr hc)
    rw [if_pos hcell] at h2
    exact Option.some_ne_none _ h2
  · intro h i hi
    rw [List.findSome?_eq_none_iff]
    intro j hj
    rw [if_neg (h i (List.mem_range.mp hi) j (List.mem_range.mp hj))]

theorem findEmpty_spec {g : Grid} {r c : Nat} (h : findEmpty g = some (r, c)) :
    r < 9 ∧ c < 9 ∧ cell g r c = 0 := by
  unfold findEmpty at h
  obtain ⟨i, hi, h1⟩ := list_findSome?_some h
  obtain ⟨j, hj, h2⟩ := list_findSome?_some h1
  by_cases hc : cell g i j = 0
  · rw [if_pos hc] at h2
    obtain ⟨rfl, rfl⟩ : i = r ∧ j = c := by
      have := Option.some.inj h2
      exact ⟨congrArg Prod.fst this, congrArg Prod.snd this⟩
    exact ⟨List.mem_range.mp hi, List.mem_range.mp hj, hc⟩
  · rw [if_neg hc] at h2
    exact absurd h2 (Option.noConfusion)

-- ## C6: characterisation of isSafe

theorem isSafe_iff (g : Grid) (row col num : Nat) :
    isSafe g row col num = true ↔
      ¬valueInRow g row num ∧ ¬valueInCol g col num ∧ ¬valueInBox g row col num := by
  unfold isSafe valueInRow valueInCol valueInBox
  simp only [Bool.and_eq_true, List.all_eq_true, List.mem_range,
    Bool.not_eq_true', beq_eq_false_iff_ne, ne_eq]
  constructor
  · rintro ⟨hrc, hbox⟩
    refine ⟨?_, ?_, ?_⟩
    · rintro ⟨c, hc, hval⟩
      exact (hrc c hc).1 hval
    · rintro ⟨r, hr, hval⟩
      exact (hrc r hr).2 hval
    · rintro ⟨i, hi, j, hj, hval⟩
      have e1 : 3 * (row / 3) + i = i + (row - row % 3) := by omega
      have e2 : 3 * (col / 3) + j = j + (col - col % 3) := by omega
      rw [e1, e2] at hval
      exact hbox i hi j hj hval
  · rintro ⟨hr, hc, hb⟩
    refine ⟨fun x hx => ⟨fun hval => hr ⟨x, hx, hval⟩, fun hval => hc ⟨x, hx, hval⟩⟩,
      fun i hi j hj hval => hb ⟨i, hi, j, hj, ?_⟩⟩
    have e1 : 3 * (row / 3) + i = i + (row - row % 3) := by omega
    have e2 : 3 * (col / 3) + j = j + (col - col % 3) := by omega
    rw [e1, e2]
    exact hval

-- ## the counting search restores the grid (C9) and is bounded (C10)

theorem setCell_zero_of_cell_zero {g : Grid} {r c : Nat} (h : cell g r c = 0) :
    setCell g r c 0 = g := by
  conv_lhs => rw [← h]
  exact setCell_cell g r c

theorem countNums_grid {rec : Grid → Nat → Nat × Grid} {row col : Nat}
    (hrec : ∀ h c, (rec h c).2 = h) :
    ∀ (nums : List Nat) (g : Grid) (cnt : Nat), cell g row col = 0 →
      (countNums rec row col nums g cnt).2 = g := by
  intro nums
  induction nums with
  | nil => intro g cnt _; rfl
  | cons num rest ih =>
    intro g cnt h0
    rw [countNums]
    by_cases hs : isSafe g row col num
    · rw [if_pos hs]
      rcases hrc : rec (setCell g row col num) cnt with ⟨c2, g2⟩
      have hg2 : g2 = setCell g row col num := by
        have h' := hrec (setCell g row col num) cnt
        rw [hrc] at h'
        exact h'
      show (countNums rec row col rest (setCell g2 row col 0) c2).2 = g
      rw [hg2, setCell_setCell, setCell_zero_of_cell_zero h0]
      exact ih g c2 h0
    · rw [if_neg hs]
      exact ih g cnt h0

theorem countSolutionsAux_grid : ∀ (fuel : Nat) (g : Grid) (cnt : Nat),
    (countSolutionsAux fuel g cnt).2 = g := by
  intro fuel
  induction fuel with
  | zero => intro g cnt; rfl
  | succ fuel ih =>
    intro g cnt
    rw [countSolutionsAux]
    by_cases h1 : cnt > 1
    · rw [if_pos h1]
    · rw [if_neg h1]
      cases hfe : findEmpty g with
      | none => rfl
      | some rc =>
        rcases rc with ⟨row, col⟩
        exact countNums_grid (fun h c => ih h c) _ g cnt (findEmpty_spec hfe).2.2

theorem countNums_le {rec : Grid → Nat → Nat × Grid} {row col : Nat}
    (hrec : ∀ h c, c ≤ 2 → (rec h c).1 ≤ 2) :
    ∀ (nums : List Nat) (g : Grid) (cnt : Nat), cnt ≤ 2 →
      (countNums rec row col nums g cnt).1 ≤ 2 := by
  intro nums
  induction nums with
  | nil => intro g cnt h; exact h
  | cons num rest ih =>
    intro g cnt h
    rw [countNums]
    by_cases hs : isSafe g row col num
    · rw [if_pos hs]
      rcases hrc : rec (setCell g row col num) cnt with ⟨c2, g2⟩
      have hc2 : c2 ≤ 2 := by
        have h' := hrec (setCell g row col num) cnt h
        rw [hrc] at h'
        exact h'
      exact ih (setCell g2 row col 0) c2 hc2
    · rw [if_neg hs]
      exact ih g cnt h

theorem countSolutionsAux_le : ∀ (fuel : Nat) (g : Grid) (cnt : Nat), cnt ≤ 2 →
    (countSolutionsAux fuel g cnt).1 ≤ 2 := by
  intro fuel
  induction fuel with
  | zero => intro g cnt h; exact h
  | succ fuel ih =>
    intro g cnt h
    rw [countSolutionsAux]
    by_cases h1 : cnt > 1
    · rw [if_pos h1]; exact h
    · rw [if_neg h1]
      cases hfe : findEmpty g with
      | none => show cnt + 1 ≤ 2; omega
      | some rc =>
        rcases rc with ⟨row, col⟩
        exact countNums_le (fun h c hc => ih h c hc) _ g cnt h

theorem countSolutionsAux_succ_complete (fuel : Nat) {g : Grid}
    (h : isCompleteGrid g) (cnt : Nat) (hcnt : ¬cnt > 1) :
    countSolutionsAux (fuel + 1) g cnt = (cnt + 1, g) := by
  rw [countSolutionsAux, if_neg hcnt, (findEmpty_eq_none_iff g).mpr h]

theorem countSolutions_complete {g : Grid} (h : isCompleteGrid g) :
    countSolutions g 0 = 1 := by
  show (countSolutionsAux 82 g 0).1 = 1
  have e : countSolutionsAux 82 g 0 = (0 + 1, g) :=
    countSolutionsAux_succ_complete 81 h 0 (by omega)
  rw [e]

-- ## the solver either completes the grid or fully unwinds it (C5, C8)

theorem tryNums_false {rec : Grid → Bool × Grid} {row col : Nat}
    (hrec : ∀ h, (rec h).1 = false → (rec h).2 = h) :
    ∀ (nums : List Nat) (g : Grid), cell g row col = 0 →
      (tryNums rec row col nums g).1 = false →
      (tryNums rec row col nums g).2 = g := by
  intro nums
  induction nums with
  | nil => intro g _ _; rfl
  | cons num rest ih =>
    intro g h0
    rw [tryNums]
    by_cases hs : isSafe g row col num
    · rw [if_pos hs]
      rcases hrc : rec (setCell g row col num) with ⟨ok, g2⟩
      cases ok with
      | true =>
        intro hfalse
        exact absurd (show true = false from hfalse) (by simp)
      | false =>
        intro hfalse
        have hg2 : g2 = setCell g row col num := by
          have h' := hrec (setCell g row col num)
          rw [hrc] at h'
          exact h' rfl
        have hfalse' : (tryNums rec row col rest (setCell g2 row col 0)).1 = false :=
          hfalse
        show (tryNums rec row col rest (setCell g2 row col 0)).2 = g
        rw [hg2, setCell_setCell, setCell_zero_of_cell_zero h0] at hfalse' ⊢
        exact ih g h0 hfalse'
    · rw [if_neg hs]
      exact ih g h0

theorem tryNums_true {rec : Grid → Bool × Grid} {row col : Nat}
    (hrec : ∀ h, (rec h).1 = true → findEmpty (rec h).2 = none) :
    ∀ (nums : List Nat) (g : Grid),
      (tryNums rec row col nums g).1 = true →
      findEmpty (tryNums rec row col nums g).2 = none := by
  intro nums
  induction nums with
  | nil =>
    intro g htrue
    exact absurd (show false = true from htrue) (by simp)
  | cons num rest ih =>
    intro g
    rw [tryNums]
    by_cases hs : isSafe g row col num
    · rw [if_pos hs]
      rcases hrc : rec (setCell g row col num) with ⟨ok, g2⟩
      cases ok with
      | true =>
        intro _
        have h' := hrec (setCell g row col num)
        rw [hrc] at h'
        exact h' rfl
      | false =>
        intro htrue
        exact ih (setCell g2 row col 0) htrue
    · rw [if_neg hs]
      exact ih g

theorem solveGridAux_false : ∀ (fuel : Nat) (g : Grid),
    (solveGridAux fuel g).1 = false → (solveGridAux fuel g).2 = g := by
  intro fuel
  induction fuel with
  | zero => intro g _; rfl
  | succ fuel ih =>
    intro g
    rw [solveGridAux]
    cases hfe : findEmpty g with
    | none =>
      intro hfalse
      exact absurd (show true = false from hfalse) (by simp)
    | some rc =>
      rcases rc with ⟨row, col⟩
      exact tryNums_false (fun h => ih h) _ g (findEmpty_spec hfe).2.2

theorem solveGridAux_true : ∀ (fuel : Nat) (g : Grid),
    (solveGridAux fuel g).1 = true → isCompleteGrid (solveGridAux fuel g).2 := by
  intro fuel
  have main : ∀ (fuel : Nat) (g : Grid),
      (solveGridAux fuel g).1 = true → findEmpty (solveGridAux fuel g).2 = none := by
    intro fuel
    induction fuel with
    | zero =>
      intro g htrue
      exact absurd (show false = true from htrue) (by simp)
    | succ fuel ih =>
      intro g
      rw [solveGridAux]
      cases hfe : findEmpty g with
      | none => intro _; exact hfe
      | some rc =>
        rcases rc with ⟨row, col⟩
        exact tryNums_true (fun h => ih h) _ g
  intro g htrue
  exact (findEmpty_eq_none_iff _).mp (main fuel g htrue)

theorem solveGridAux_succ_complete (fuel : Nat) {g : Grid} (h : isCompleteGrid g) :
    solveGridAux (fuel + 1) g = (true, g) := by
  rw [solveGridAux, (findEmpty_eq_none_iff g).mpr h]

theorem solveGrid_complete {g : Grid} (h : isCompleteGrid g) :
    solveGrid g = (true, g) := by
  show solveGridAux 82 g = (true, g)
  exact solveGridAux_succ_complete 81 h

-- ## invariants of the removal loop

theorem cell_setCell_zero_cases (g : Grid) (a b r c : Nat) :
    cell (setCell g a b 0) r c = 0 ∨ cell (setCell g a b 0) r c = cell g r c := by
  by_cases h : r = a ∧ c = b
  · obtain ⟨rfl, rfl⟩ := h
    exact cell_setCell_self g r c 0
  · exact Or.inr (cell_setCell_ne g a b r c 0 h)

theorem removeCells_unique : ∀ (ps : List (Nat × Nat)) (puzzle : Grid) (att rem : Nat),
    countSolutions puzzle 0 = 1 →
    countSolutions (removeCells ps puzzle att rem).1 0 = 1 := by
  intro ps
  induction ps with
  | nil => intro puzzle att rem h; exact h
  | cons q rest ih =>
    rcases q with ⟨a, b⟩
    intro puzzle att rem h
    simp only [removeCells]
    by_cases ht : rem ≤ 0
    · rw [if_pos ht]; exact h
    · rw [if_neg ht]
      by_cases h0 : cell puzzle a b = 0
      · rw [if_pos h0]; exact ih puzzle att rem h
      · rw [if_neg h0]
        by_cases hcs : countSolutions (setCell puzzle a b 0) 0 ≠ 1
        · rw [if_pos hcs, restore_eq]
          by_cases hbrk : att - 1 ≤ 0 ∧ 0 < rem
          · rw [if_pos hbrk]; exact h
          · rw [if_neg hbrk]; exact ih puzzle (att - 1) rem h
        · rw [if_neg hcs]
          push_neg at hcs
          exact ih (setCell puzzle a b 0) att (rem - 1) hcs

theorem removeCells_subgrid : ∀ (ps : List (Nat × Nat)) (puzzle : Grid)
    (att rem : Nat) (s : Grid),
    (∀ r c, cell puzzle r c = 0 ∨ cell puzzle r c = cell s r c) →
    ∀ r c, cell (removeCells ps puzzle att rem).1 r c = 0 ∨
      cell (removeCells ps puzzle att rem).1 r c = cell s r c := by
  intro ps
  induction ps with
  | nil => intro puzzle att rem s h; exact h
  | cons q rest ih =>
    rcases q with ⟨a, b⟩
    intro puzzle att rem s h
    simp only [removeCells]
    by_cases ht : rem ≤ 0
    · rw [if_pos ht]; exact h
    · rw [if_neg ht]
      by_cases h0 : cell puzzle a b = 0
      · rw [if_pos h0]; exact ih puzzle att rem s h
      · rw [if_neg h0]
        by_cases hcs : countSolutions (setCell puzzle a b 0) 0 ≠ 1
        · rw [if_pos hcs, restore_eq]
          by_cases hbrk : att - 1 ≤ 0 ∧ 0 < rem
          · rw [if_pos hbrk]; exact h
          · rw [if_neg hbrk]; exact ih puzzle (att - 1) rem s h
        · rw [if_neg hcs]
          refine ih (setCell puzzle a b 0) att (rem - 1) s ?_
          intro r c
          rcases cell_setCell_zero_cases puzzle a b r c with h1 | h1
          · exact Or.inl h1
          · rw [h1]; exact h r c

-- ## unpacking a successful generator run

theorem generate_eq {clues : Nat} {rs : List Nat} {p s : Grid}
    (h : generateSudokuPuzzle clues rs = some (p, s)) :
    ∃ rs1 shuffled rs2,
      generateFullBoard rs = some (s, rs1) ∧
      shuffleAux (allPositions.length - 1) allPositions rs1 = some (shuffled, rs2) ∧
      p = (removeCells shuffled s (if clues > 25 then 5 else 20) (81 - clues)).1 := by
  unfold generateSudokuPuzzle at h
  simp only [Option.bind_eq_bind, Option.bind_eq_some, Option.pure_def,
    Option.some.injEq, Prod.mk.injEq] at h
  obtain ⟨⟨sol, rs1⟩, hfb, ⟨shuffled, rs2⟩, hsh, hp, hs⟩ := h
  subst hs
  exact ⟨rs1, shuffled, rs2, hfb, hsh, hp.symm⟩

theorem trace_eq (clues : Nat) {rs : List Nat} {rs1 : List Nat}
    {shuffled : List (Nat × Nat)} {rs2 : List Nat} {s : Grid}
    (hfb : generateFullBoard rs = some (s, rs1))
    (hsh : shuffleAux (allPositions.length - 1) allPositions rs1 =
      some (shuffled, rs2)) :
    generationTrace clues rs =
      some (removeCells shuffled s (if clues > 25 then 5 else 20) (81 - clues)) := by
  unfold generationTrace
  rw [hfb]
  show (shuffleAux (allPositions.length - 1) allPositions rs1).bind _ = _
  rw [hsh]
  rfl

-- ## concrete data for witnesses

/-- A pre-drawn random stream: 27 seeding draws (value - 1, so each draw is
immediately box-safe) followed by 80 draws of 0 for the position shuffle. -/
def rsSample : List Nat :=
  [0, 1, 2, 3, 4, 5, 6, 7, 8, 4, 5, 6, 7, 8, 0, 1, 2, 3,
   8, 0, 1, 2, 3, 4, 5, 6, 7] ++ List.replicate 80 0

/-- The full board `generateFullBoard` produces from `rsSample` (checked by
evaluation inside `sampleRun`). -/
def sampleSolution : Grid :=
  [[1, 2, 3, 4, 5, 6, 7, 8, 9],
   [4, 5, 6, 7, 8, 9, 1, 2, 3],
   [7, 8, 9, 1, 2, 3, 4, 5, 6],
   [2, 3, 1, 5, 6, 7, 8, 9, 4],
   [5, 6, 4, 8, 9, 1, 2, 3, 7],
   [8, 9, 7, 2, 3, 4, 5, 6, 1],
   [3, 4, 5, 6, 7, 8, 9, 1, 2],
   [6, 7, 8, 9, 1, 2, 3, 4, 5],
   [9, 1, 2, 3, 4, 5, 6, 7, 8]]

/-- A complete valid grid (cyclic pattern). -/
def sampleComplete : Grid :=
  [[1, 2, 3, 4, 5, 6, 7, 8, 9],
   [4, 5, 6, 7, 8, 9, 1, 2, 3],
   [7, 8, 9, 1, 2, 3, 4, 5, 6],
   [2, 3, 4, 5, 6, 7, 8, 9, 1],
   [5, 6, 7, 8, 9, 1, 2, 3, 4],
   [8, 9, 1, 2, 3, 4, 5, 6, 7],
   [3, 4, 5, 6, 7, 8, 9, 1, 2],
   [6, 7, 8, 9, 1, 2, 3, 4, 5],
   [9, 1, 2, 3, 4, 5, 6, 7, 8]]

/-- `sampleComplete` with the first cell overwritten by 2: the grid is
complete (no empty cell) but row 0 contains the value 2 twice. -/
def gDup : Grid :=
  [[2, 2, 3, 4, 5, 6, 7, 8, 9],
   [4, 5, 6, 7, 8, 9, 1, 2, 3],
   [7, 8, 9, 1, 2, 3, 4, 5, 6],
   [2, 3, 4, 5, 6, 7, 8, 9, 1],
   [5, 6, 7, 8, 9, 1, 2, 3, 4],
   [8, 9, 1, 2, 3, 4, 5, 6, 7],
   [3, 4, 5, 6, 7, 8, 9, 1, 2],
   [6, 7, 8, 9, 1, 2, 3, 4, 5],
   [9, 1, 2, 3, 4, 5, 6, 7, 8]]

/-- A grid on which `solveGrid` fails immediately: the first empty cell
`(0, 8)` admits no safe value (1..8 are in its row, 9 in its column). -/
def gStuck : Grid :=
  [[1, 2, 3, 4, 5, 6, 7, 8, 0],
   [0, 0, 0, 0, 0, 0, 0, 0, 9],
   [0, 0, 0, 0, 0, 0, 0, 0, 0],
   [0, 0, 0, 0, 0, 0, 0, 0, 0],
   [0, 0, 0, 0, 0, 0, 0, 0, 0],
   [0, 0, 0, 0, 0, 0, 0, 0, 0],
   [0, 0, 0, 0, 0, 0, 0, 0, 0],
   [0, 0, 0, 0, 0, 0, 0, 0, 0],
   [0, 0, 0, 0, 0, 0, 0, 0, 0]]

/-- The concrete generator run used by the witnesses: with a requested clue
count of 81 nothing is removed and the puzzle equals the solution. -/
theorem sampleRun :
    generateSudokuPuzzle 81 rsSample = some (sampleSolution, sampleSolution) := by
  decide

-- ## claim theorems (first batch)

/-- C1: for every call of `generateSudokuPuzzle` that returns a pair, if the
internal solve step succeeded (equivalently: the returned solution grid is
complete, which holds for every observed run), then running `countSolutions`
on the returned puzzle with a fresh counter yields exactly 1 — including runs
that end on the degraded attempt-budget path, since the removal loop only
ever keeps a removal that was checked to preserve uniqueness. -/
theorem c1_generated_puzzle_unique (clues : Nat) (rs : List Nat) (p s : Grid)
    (h : generateSudokuPuzzle clues rs = some (p, s))
    (hs : isCompleteGrid s) : countSolutions p 0 = 1 := by
  obtain ⟨rs1, shuffled, rs2, hfb, hsh, hp⟩ := generate_eq h
  rw [hp]
  exact removeCells_unique _ _ _ _ (countSolutions_complete hs)

/-- Witness for C1 at the concrete run `generateSudokuPuzzle 81 rsSample`. -/
theorem c1_generated_puzzle_unique_witness :
    generateSudokuPuzzle 81 rsSample = some (sampleSolution, sampleSolution) ∧
    isCompleteGrid sampleSolution ∧ countSolutions sampleSolution 0 = 1 :=
  ⟨sampleRun, by decide,
    c1_generated_puzzle_unique 81 rsSample sampleSolution sampleSolution
      sampleRun (by decide)⟩

/-- C3: every cell of the returned puzzle is either 0 or equal to the
corresponding cell of the returned solution (the puzzle starts as a copy of
the solution and the loop only ever zeroes cells or restores their backup). -/
theorem c3_puzzle_matches_solution (clues : Nat) (rs : List Nat) (p s : Grid)
    (h : generateSudokuPuzzle clues rs = some (p, s)) :
    ∀ r c, cell p r c = 0 ∨ cell p r c = cell s r c := by
  obtain ⟨rs1, shuffled, rs2, hfb, hsh, hp⟩ := generate_eq h
  rw [hp]
  exact removeCells_subgrid _ _ _ _ s (fun r c => Or.inr rfl)

/-- Witness for C3 at the concrete run, instantiated at cell (0, 0). -/
theorem c3_puzzle_matches_solution_witness :
    cell sampleSolution 0 0 = 0 ∨
    cell sampleSolution 0 0 = cell sampleSolution 0 0 :=
  c3_puzzle_matches_solution 81 rsSample sampleSolution sampleSolution
    sampleRun 0 0

/-- C4 counterexample: the claim says `countSolutions` returns 0 on every
grid with a duplicated value in some row; but on `gDup` — a grid with no
empty cell whose row 0 holds the value 2 twice — it returns 1, because the
no-empty-cell branch increments the counter without validating the grid. -/
theorem c4_counterexample :
    isCompleteGrid gDup ∧ cell gDup 0 0 = 2 ∧ cell gDup 0 1 = 2 ∧
    countSolutions gDup 0 = 1 ∧ countSolutions gDup 0 ≠ 0 := by
  decide

/-- C4 as amended: with a fresh counter, `countSolutions` returns exactly 1
on every grid that has zero empty cells — whether or not it is a valid
completion; in particular a complete grid containing a duplicated value also
yields 1, not 0 (the valid-completion half of the original claim is the
special case of a valid complete grid). -/
theorem c4_amended_complete_returns_one (g : Grid) (h : isCompleteGrid g) :
    countSolutions g 0 = 1 :=
  countSolutions_complete h

/-- Witness for the amended C4 on a concrete complete valid grid. -/
theorem c4_amended_complete_returns_one_witness :
    isCompleteGrid sampleComplete ∧ countSolutions sampleComplete 0 = 1 :=
  ⟨by decide, c4_amended_complete_returns_one sampleComplete (by decide)⟩

/-- C5: `solveGrid` is atomic: if it returns true the final grid state is
fully populated (no scanned cell is 0); if it returns false the final grid
state equals the grid passed in (every tentative placement was undone). -/
theorem c5_solve_atomic (g : Grid) :
    ((solveGrid g).1 = true → isCompleteGrid (solveGrid g).2) ∧
    ((solveGrid g).1 = false → (solveGrid g).2 = g) :=
  ⟨fun h => solveGridAux_true 82 g h, fun h => solveGridAux_false 82 g h⟩

/-- Witness for C5: a solved run (complete grid) and a failing run. -/
theorem c5_solve_atomic_witness :
    ((solveGrid sampleComplete).1 = true ∧
      isCompleteGrid (solveGrid sampleComplete).2) ∧
    ((solveGrid gStuck).1 = false ∧ (solveGrid gStuck).2 = gStuck) :=
  ⟨⟨by decide, (c5_solve_atomic sampleComplete).1 (by decide)⟩,
   ⟨by decide, (c5_solve_atomic gStuck).2 (by decide)⟩⟩

/-- C6: `isSafe(grid, row, col, value)` returns true iff the value appears
nowhere among the entries of the row, nowhere among the entries of the
column, and nowhere in the 3 x 3 box containing the position (the embedding
is pure, so freedom from side effects is inherent in the model). -/
theorem c6_isSafe_characterisation (g : Grid) (row col num : Nat) :
    isSafe g row col num = true ↔
      ¬valueInRow g row num ∧ ¬valueInCol g col num ∧
      ¬valueInBox g row col num :=
  isSafe_iff g row col num

/-- C8: re-running `solveGrid` on an already-complete valid grid returns true
immediately and leaves every cell unchanged. -/
theorem c8_solve_idempotent_on_complete (g : Grid) (h : isValidComplete g) :
    solveGrid g = (true, g) :=
  solveGrid_complete h.1

/-- Witness for C8 on a concrete complete valid grid. -/
theorem c8_solve_idempotent_on_complete_witness :
    isValidComplete sampleComplete ∧
    solveGrid sampleComplete = (true, sampleComplete) :=
  ⟨by decide, c8_solve_idempotent_on_complete sampleComplete (by decide)⟩

/-- C9: the counting search restores the grid: for every grid, every starting
counter and every fuel value, the grid state returned by `countSolutionsAux`
(the in-place state of the source's `countSolutions`) equals the grid passed
in — every tentative placement is undone before return. -/
theorem c9_countSolutions_restores_grid (g : Grid) (cnt fuel : Nat) :
    (countSolutionsAux fuel g cnt).2 = g :=
  countSolutionsAux_grid fuel g cnt

/-- C10: with a fresh counter, `countSolutions` returns 0, 1 or 2 on every
grid: the counter is only incremented in calls entered with value at most 1,
so the result never exceeds 2 even when more than two completions exist. -/
theorem c10_countSolutions_at_most_two (g : Grid) :
    countSolutions g 0 = 0 ∨ countSolutions g 0 = 1 ∨ countSolutions g 0 = 2 := by
  have h : countSolutions g 0 ≤ 2 := countSolutionsAux_le 82 g 0 (by omega)
  omega

-- ## consistency: the solver only ever creates valid complete grids (C2)

/-- Two positions share a row, a column, or a 3 x 3 box. -/
def sameUnit (r1 c1 r2 c2 : Nat) : Prop :=
  r1 = r2 ∨ c1 = c2 ∨ (r1 / 3 = r2 / 3 ∧ c1 / 3 = c2 / 3)

/-- No two distinct scanned cells in a common unit hold the same non-zero
value. -/
def consistent (g : Grid) : Prop :=
  ∀ r1 < 9, ∀ c1 < 9, ∀ r2 < 9, ∀ c2 < 9,
    (r1, c1) ≠ (r2, c2) → sameUnit r1 c1 r2 c2 →
    cell g r1 c1 ≠ 0 → cell g r1 c1 ≠ cell g r2 c2

/-- Every non-zero scanned entry lies in 1..9. -/
def entriesRange (g : Grid) : Prop :=
  ∀ r < 9, ∀ c < 9, cell g r c = 0 ∨ (1 ≤ cell g r c ∧ cell g r c ≤ 9)

theorem consistent_setCell {g : Grid} (hw : WF g) (hcon : consistent g)
    {row col num : Nat} (hrow : row < 9) (hcol : col < 9)
    (h0 : cell g row col = 0) (hsafe : isSafe g row col num = true)
    (_hnum1 : 1 ≤ num) : consistent (setCell g row col num) := by
  obtain ⟨hnr, hnc, hnb⟩ := (isSafe_iff g row col num).mp hsafe
  intro r1 hr1 c1 hc1 r2 hr2 c2 hc2 hne hunit hnz heq
  by_cases h1 : r1 = row ∧ c1 = col
  · obtain ⟨rfl, rfl⟩ := h1
    have h2 : ¬(r2 = r1 ∧ c2 = c1) := by
      intro ⟨ha, hb⟩; exact hne (by rw [ha, hb])
    rw [cell_setCell_self_of_WF hw hr1 hc1] at heq
    rw [cell_setCell_ne g r1 c1 r2 c2 num h2] at heq
    rcases hunit with hu | hu | ⟨hu1, hu2⟩
    · exact hnr ⟨c2, hc2, by rw [hu]; exact heq.symm⟩
    · exact hnc ⟨r2, hr2, by rw [hu]; exact heq.symm⟩
    · refine hnb ⟨r2 % 3, by omega, c2 % 3, by omega, ?_⟩
      have e1 : 3 * (r1 / 3) + r2 % 3 = r2 := by omega
      have e2 : 3 * (c1 / 3) + c2 % 3 = c2 := by omega
      rw [e1, e2]
      exact heq.symm
  · rw [cell_setCell_ne g row col r1 c1 num h1] at hnz heq
    by_cases h2 : r2 = row ∧ c2 = col
    · obtain ⟨rfl, rfl⟩ := h2
      rw [cell_setCell_self_of_WF hw hr2 hc2] at heq
      rcases hunit with hu | hu | ⟨hu1, hu2⟩
      · exact hnr ⟨c1, hc1, by rw [← hu]; exact heq⟩
      · exact hnc ⟨r1, hr1, by rw [← hu]; exact heq⟩
      · refine hnb ⟨r1 % 3, by omega, c1 % 3, by omega, ?_⟩
        have e1 : 3 * (r2 / 3) + r1 % 3 = r1 := by omega
        have e2 : 3 * (c2 / 3) + c1 % 3 = c1 := by omega
        rw [e1, e2]
        exact heq
    · rw [cell_setCell_ne g row col r2 c2 num h2] at heq
      exact hcon r1 hr1 c1 hc1 r2 hr2 c2 hc2 hne hunit hnz heq

theorem consistent_setCell_zero {g : Grid} (hcon : consistent g)
    (row col : Nat) : consistent (setCell g row col 0) := by
  intro r1 hr1 c1 hc1 r2 hr2 c2 hc2 hne hunit hnz heq
  by_cases h1 : r1 = row ∧ c1 = col
  · obtain ⟨rfl, rfl⟩ := h1
    rcases cell_setCell_self g r1 c1 0 with hx | hx
    · exact hnz hx
    · have h2 : ¬(r2 = r1 ∧ c2 = c1) := by
        intro ⟨ha, hb⟩; exact hne (by rw [ha, hb])
      rw [hx] at hnz heq
      rw [cell_setCell_ne g r1 c1 r2 c2 0 h2] at heq
      exact hcon r1 hr1 c1 hc1 r2 hr2 c2 hc2 hne hunit hnz heq
  · rw [cell_setCell_ne g row col r1 c1 0 h1] at hnz heq
    by_cases h2 : r2 = row ∧ c2 = col
    · obtain ⟨rfl, rfl⟩ := h2
      rcases cell_setCell_self g r2 c2 0 with hx | hx
      · rw [hx] at heq; exact hnz heq
      · rw [hx] at heq
        exact hcon r1 hr1 c1 hc1 r2 hr2 c2 hc2 hne hunit hnz heq
    · rw [cell_setCell_ne g row col r2 c2 0 h2] at heq
      exact hcon r1 hr1 c1 hc1 r2 hr2 c2 hc2 hne hunit hnz heq

theorem entriesRange_setCell {g : Grid} (her : entriesRange g) {v : Nat}
    (hv : v = 0 ∨ (1 ≤ v ∧ v ≤ 9)) (row col : Nat) :
    entriesRange (setCell g row col v) := by
  intro r hr c hc
  by_cases h1 : r = row ∧ c = col
  · obtain ⟨rfl, rfl⟩ := h1
    rcases cell_setCell_self g r c v with hx | hx
    · rw [hx]; exact hv
    · rw [hx]; exact her r hr c hc
  · rw [cell_setCell_ne g row col r c v h1]
    exact her r hr c hc

/-- The state invariant threaded through the backtracking solver. -/
def GoodGrid (g : Grid) : Prop := consistent g ∧ entriesRange g ∧ WF g

theorem GoodGrid_place {g : Grid} (hg : GoodGrid g) {row col num : Nat}
    (hrow : row < 9) (hcol : col < 9) (h0 : cell g row col = 0)
    (hsafe : isSafe g row col num = true) (hnum1 : 1 ≤ num) (hnum9 : num ≤ 9) :
    GoodGrid (setCell g row col num) :=
  ⟨consistent_setCell hg.2.2 hg.1 hrow hcol h0 hsafe hnum1,
   entriesRange_setCell hg.2.1 (Or.inr ⟨hnum1, hnum9⟩) row col,
   WF_setCell hg.2.2 row col num⟩

theorem GoodGrid_unplace {g : Grid} (hg : GoodGrid g) (row col : Nat) :
    GoodGrid (setCell g row col 0) :=
  ⟨consistent_setCell_zero hg.1 row col,
   entriesRange_setCell hg.2.1 (Or.inl rfl) row col,
   WF_setCell hg.2.2 row col 0⟩

theorem tryNums_good {rec : Grid → Bool × Grid} {row col : Nat}
    (hrow : row < 9) (hcol : col < 9)
    (hrec : ∀ h, GoodGrid h → GoodGrid (rec h).2) :
    ∀ (nums : List Nat) (g : Grid), (∀ n ∈ nums, 1 ≤ n ∧ n ≤ 9) →
      cell g row col = 0 → GoodGrid g →
      GoodGrid (tryNums rec row col nums g).2 := by
  intro nums
  induction nums with
  | nil => intro g _ _ hg; exact hg
  | cons num rest ih =>
    intro g hnums h0 hg
    rw [tryNums]
    by_cases hs : isSafe g row col num
    · rw [if_pos hs]
      rcases hrc : rec (setCell g row col num) with ⟨ok, g2⟩
      have hnum := hnums num (List.mem_cons_self _ _)
      have hplace : GoodGrid (setCell g row col num) :=
        GoodGrid_place hg hrow hcol h0 hs hnum.1 hnum.2
      have hg2 : GoodGrid g2 := by
        have h' := hrec (setCell g row col num) hplace
        rw [hrc] at h'
        exact h'
      cases ok with
      | true => exact hg2
      | false =>
        show GoodGrid (tryNums rec row col rest (setCell g2 row col 0)).2
        refine ih (setCell g2 row col 0)
          (fun n hn => hnums n (List.mem_cons_of_mem _ hn)) ?_
          (GoodGrid_unplace hg2 row col)
        exact cell_setCell_self_of_WF hg2.2.2 hrow hcol 0
    · rw [if_neg hs]
      exact ih g (fun n hn => hnums n (List.mem_cons_of_mem _ hn)) h0 hg

theorem solveGridAux_good : ∀ (fuel : Nat) (g : Grid), GoodGrid g →
    GoodGrid (solveGridAux fuel g).2 := by
  intro fuel
  induction fuel with
  | zero => intro g hg; exact hg
  | succ fuel ih =>
    intro g hg
    rw [solveGridAux]
    cases hfe : findEmpty g with
    | none => exact hg
    | some rc =>
      rcases rc with ⟨row, col⟩
      obtain ⟨hrow, hcol, h0⟩ := findEmpty_spec hfe
      exact tryNums_good hrow hcol (fun h hh => ih h hh) _ g (by decide) h0 hg

-- ## pigeonhole: a complete consistent grid is valid

theorem filter_card_eq_one {h : Nat → Nat}
    (hrange : ∀ c < 9, 1 ≤ h c ∧ h c ≤ 9)
    (hinj : ∀ c1 < 9, ∀ c2 < 9, h c1 = h c2 → c1 = c2)
    {v : Nat} (hv1 : 1 ≤ v) (hv9 : v ≤ 9) :
    ((Finset.range 9).filter fun c => h c = v).card = 1 := by
  have hsub : (Finset.range 9).image h ⊆ Finset.Icc 1 9 := by
    intro x hx
    obtain ⟨c, hc, rfl⟩ := Finset.mem_image.mp hx
    have := hrange c (Finset.mem_range.mp hc)
    exact Finset.mem_Icc.mpr this
  have hcard : ((Finset.range 9).image h).card = 9 := by
    rw [Finset.card_image_of_injOn]
    · exact Finset.card_range 9
    · intro a ha b hb hab
      exact hinj a (Finset.mem_range.mp ha) b (Finset.mem_range.mp hb) hab
  have hIcc : (Finset.Icc 1 9).card = 9 := by rw [Nat.card_Icc]
  have heqset : (Finset.range 9).image h = Finset.Icc 1 9 :=
    Finset.eq_of_subset_of_card_le hsub (by omega)
  have hvmem : v ∈ (Finset.range 9).image h := by
    rw [heqset]; exact Finset.mem_Icc.mpr ⟨hv1, hv9⟩
  obtain ⟨c0, hc0, hc0v⟩ := Finset.mem_image.mp hvmem
  rw [Finset.card_eq_one]
  refine ⟨c0, ?_⟩
  ext x
  simp only [Finset.mem_filter, Finset.mem_range, Finset.mem_singleton]
  constructor
  · rintro ⟨hx9, hxv⟩
    exact hinj x hx9 c0 (Finset.mem_range.mp hc0) (by rw [hxv, hc0v])
  · rintro rfl
    exact ⟨Finset.mem_range.mp hc0, hc0v⟩

theorem valid_of_complete_consistent {g : Grid} (hcomp : isCompleteGrid g)
    (hcon : consistent g) (her : entriesRange g) : isValidComplete g := by
  refine ⟨hcomp, ?_⟩
  intro v hv10 hv1
  refine ⟨?_, ?_, ?_⟩
  · intro r hr
    refine filter_card_eq_one ?_ ?_ hv1 (by omega)
    · intro c hc
      rcases her r hr c hc with h | h
      · exact absurd h (hcomp r hr c hc)
      · exact h
    · intro c1 hc1 c2 hc2 heq
      by_contra hne
      exact hcon r hr c1 hc1 r hr c2 hc2
        (by intro hp; exact hne (congrArg Prod.snd hp))
        (Or.inl rfl) (hcomp r hr c1 hc1) heq
  · intro c hc
    refine filter_card_eq_one ?_ ?_ hv1 (by omega)
    · intro r hr
      rcases her r hr c hc with h | h
      · exact absurd h (hcomp r hr c hc)
      · exact h
    · intro r1 hr1 r2 hr2 heq
      by_contra hne
      exact hcon r1 hr1 c hc r2 hr2 c hc
        (by intro hp; exact hne (congrArg Prod.fst hp))
        (Or.inr (Or.inl rfl)) (hcomp r1 hr1 c hc) heq
  · intro b hb
    refine filter_card_eq_one ?_ ?_ hv1 (by omega)
    · intro k hk
      have hrlt : 3 * (b / 3) + k / 3 < 9 := by omega
      have hclt : 3 * (b % 3) + k % 3 < 9 := by omega
      rcases her _ hrlt _ hclt with h | h
      · exact absurd h (hcomp _ hrlt _ hclt)
      · exact h
    · intro k1 hk1 k2 hk2 heq
      by_contra hne
      have hr1 : 3 * (b / 3) + k1 / 3 < 9 := by omega
      have hc1 : 3 * (b % 3) + k1 % 3 < 9 := by omega
      have hr2 : 3 * (b / 3) + k2 / 3 < 9 := by omega
      have hc2 : 3 * (b % 3) + k2 % 3 < 9 := by omega
      refine hcon _ hr1 _ hc1 _ hr2 _ hc2 ?_ ?_ (hcomp _ hr1 _ hc1) heq
      · intro hp
        have e1 := congrArg Prod.fst hp
        have e2 := congrArg Prod.snd hp
        simp only at e1 e2
        omega
      · exact Or.inr (Or.inr ⟨by omega, by omega⟩)

-- ## the diagonal-box seeding produces a consistent grid

theorem list_getD_replicate {α : Type} (n i : Nat) (a d : α) :
    (List.replicate n a).getD i d = if i < n then a else d := by
  induction n generalizing i with
  | zero => simp [List.replicate]
  | succ m ih =>
    cases i with
    | zero => simp [List.replicate]
    | succ k =>
      simp only [List.replicate, List.getD_cons_succ, ih k,
        Nat.succ_lt_succ_iff]

theorem cell_getEmptyGrid (r c : Nat) : cell getEmptyGrid r c = 0 := by
  unfold cell getEmptyGrid
  rw [list_getD_replicate]
  by_cases h : r < 9
  · rw [if_pos h, list_getD_replicate]
    by_cases h2 : c < 9
    · rw [if_pos h2]
    · rw [if_neg h2]
  · rw [if_neg h]
    exact List.getD_eq_default [] 0 (Nat.zero_le c)

theorem isSafeBox_iff (g : Grid) (row col num : Nat) :
    isSafeBox g row col num = true ↔
      ∀ i < 3, ∀ j < 3, cell g (row + i) (col + j) ≠ num := by
  unfold isSafeBox
  simp only [List.all_eq_true, List.mem_range, Bool.not_eq_true',
    beq_eq_false_iff_ne, ne_eq]

theorem drawSafeNum_spec (g : Grid) (row col : Nat) :
    ∀ (rs : List Nat) {num : Nat} {rs' : List Nat},
      drawSafeNum g row col rs = some (num, rs') →
      isSafeBox g row col num = true ∧ 1 ≤ num ∧ num ≤ 9 := by
  intro rs
  induction rs with
  | nil => intro num rs' h; exact absurd h (by simp [drawSafeNum])
  | cons r rest ih =>
    intro num rs' h
    rw [drawSafeNum] at h
    by_cases hs : isSafeBox g row col (r % 9 + 1)
    · rw [if_pos hs] at h
      have h2 := Option.some.inj h
      have hn : r % 9 + 1 = num := congrArg Prod.fst h2
      rw [← hn]
      exact ⟨hs, by omega, by omega⟩
    · rw [if_neg hs] at h
      exact ih h

/-- The nine cells of the box with corner `(row, col)` hold pairwise distinct
non-zero values. -/
def boxDistinct (g : Grid) (row col : Nat) : Prop :=
  ∀ i1 < 3, ∀ j1 < 3, ∀ i2 < 3, ∀ j2 < 3, (i1, j1) ≠ (i2, j2) →
    cell g (row + i1) (col + j1) ≠ 0 →
    cell g (row + i1) (col + j1) ≠ cell g (row + i2) (col + j2)

theorem boxDistinct_congr {g g' : Grid} {row col : Nat}
    (h : ∀ i < 3, ∀ j < 3,
      cell g' (row + i) (col + j) = cell g (row + i) (col + j))
    (hb : boxDistinct g row col) : boxDistinct g' row col := by
  intro i1 hi1 j1 hj1 i2 hi2 j2 hj2 hne hnz
  rw [h i1 hi1 j1 hj1, h i2 hi2 j2 hj2]
  rw [h i1 hi1 j1 hj1] at hnz
  exact hb i1 hi1 j1 hj1 i2 hi2 j2 hj2 hne hnz

theorem fillBoxCells_spec {row col : Nat} (hlt : row + 3 ≤ 9)
    (hclt : col + 3 ≤ 9) :
    ∀ (offs : List (Nat × Nat)) (g : Grid) (rs : List Nat) (g' : Grid)
      (rs' : List Nat),
      (∀ p ∈ offs, p.1 < 3 ∧ p.2 < 3) → WF g → boxDistinct g row col →
      entriesRange g →
      fillBoxCells row col offs g rs = some (g', rs') →
      WF g' ∧ boxDistinct g' row col ∧ entriesRange g' ∧
      ∀ r c, ¬(row ≤ r ∧ r < row + 3 ∧ col ≤ c ∧ c < col + 3) →
        cell g' r c = cell g r c := by
  intro offs
  induction offs with
  | nil =>
    intro g rs g' rs' _ hw hb her h
    have h2 := Option.some.inj h
    have hg : g = g' := congrArg Prod.fst h2
    subst hg
    exact ⟨hw, hb, her, fun r c _ => rfl⟩
  | cons q rest ih =>
    rcases q with ⟨i, j⟩
    intro g rs g' rs' hoffs hw hb her h
    rw [fillBoxCells] at h
    cases hdraw : drawSafeNum g row col rs with
    | none => rw [hdraw] at h; exact absurd h (by simp)
    | some pr =>
      rcases pr with ⟨num, rsn⟩
      rw [hdraw] at h
      have h' : fillBoxCells row col rest
          (setCell g (row + i) (col + j) num) rsn = some (g', rs') := h
      obtain ⟨hsafe, hn1, hn9⟩ := drawSafeNum_spec g row col rs hdraw
      have hi3 := (hoffs (i, j) (List.mem_cons_self _ _)).1
      have hj3 := (hoffs (i, j) (List.mem_cons_self _ _)).2
      have hnotin := (isSafeBox_iff g row col num).mp hsafe
      have hwset : WF (setCell g (row + i) (col + j) num) := WF_setCell hw _ _ _
      have hbset : boxDistinct (setCell g (row + i) (col + j) num) row col := by
        intro i1 hi1 j1 hj1 i2 hi2 j2 hj2 hne hnz heq
        by_cases h1 : i1 = i ∧ j1 = j
        · obtain ⟨rfl, rfl⟩ := h1
          rw [cell_setCell_self_of_WF hw (by omega) (by omega)] at heq
          have h2 : ¬(row + i2 = row + i1 ∧ col + j2 = col + j1) := by
            intro hp
            exact hne (by rw [show i1 = i2 by omega, show j1 = j2 by omega])
          rw [cell_setCell_ne g _ _ _ _ num h2] at heq
          exact hnotin i2 hi2 j2 hj2 heq.symm
        · have hne1 : ¬(row + i1 = row + i ∧ col + j1 = col + j) := by
            intro hp
            exact h1 ⟨by omega, by omega⟩
          rw [cell_setCell_ne g _ _ _ _ num hne1] at hnz heq
          by_cases h2 : i2 = i ∧ j2 = j
          · obtain ⟨rfl, rfl⟩ := h2
            rw [cell_setCell_self_of_WF hw (by omega) (by omega)] at heq
            exact hnotin i1 hi1 j1 hj1 heq
          · have hne2 : ¬(row + i2 = row + i ∧ col + j2 = col + j) := by
              intro hp
              exact h2 ⟨by omega, by omega⟩
            rw [cell_setCell_ne g _ _ _ _ num hne2] at heq
            exact hb i1 hi1 j1 hj1 i2 hi2 j2 hj2 hne hnz heq
      have herset : entriesRange (setCell g (row + i) (col + j) num) :=
        entriesRange_setCell her (Or.inr ⟨hn1, hn9⟩) _ _
      obtain ⟨hw', hb', her', hout⟩ :=
        ih (setCell g (row + i) (col + j) num) rsn g' rs'
          (fun p hp => hoffs p (List.mem_cons_of_mem _ hp)) hwset hbset herset h'
      refine ⟨hw', hb', her', ?_⟩
      intro r c hrc
      rw [hout r c hrc]
      refine cell_setCell_ne g _ _ _ _ num ?_
      intro hp
      exact hrc ⟨by omega, by omega, by omega, by omega⟩

theorem fillBox_spec {row col : Nat} (hlt : row + 3 ≤ 9) (hclt : col + 3 ≤ 9)
    {g g' : Grid} {rs rs' : List Nat} (hw : WF g) (hb : boxDistinct g row col)
    (her : entriesRange g) (h : fillBox g row col rs = some (g', rs')) :
    WF g' ∧ boxDistinct g' row col ∧ entriesRange g' ∧
    ∀ r c, ¬(row ≤ r ∧ r < row + 3 ∧ col ≤ c ∧ c < col + 3) →
      cell g' r c = cell g r c :=
  fillBoxCells_spec hlt hclt boxOffsets g rs g' rs' (by decide) hw hb her h

theorem seeded_good {rs : List Nat} {ga gb gc : Grid} {rsa rsb rsc : List Nat}
    (h1 : fillBox getEmptyGrid 0 0 rs = some (ga, rsa))
    (h2 : fillBox ga 3 3 rsa = some (gb, rsb))
    (h3 : fillBox gb 6 6 rsb = some (gc, rsc)) : GoodGrid gc := by
  have her0 : entriesRange getEmptyGrid := by
    intro r hr c hc
    exact Or.inl (cell_getEmptyGrid r c)
  have hb00 : boxDistinct getEmptyGrid 0 0 := by
    intro i1 hi1 j1 hj1 i2 hi2 j2 hj2 hne hnz
    exact absurd (cell_getEmptyGrid _ _) hnz
  obtain ⟨hwa, hba00, hera, houta⟩ :=
    fillBox_spec (by omega) (by omega) WF_getEmptyGrid hb00 her0 h1
  have hba33 : boxDistinct ga 3 3 := by
    intro i1 hi1 j1 hj1 i2 hi2 j2 hj2 hne hnz
    refine absurd ?_ hnz
    rw [houta (3 + i1) (3 + j1) (by omega)]
    exact cell_getEmptyGrid _ _
  obtain ⟨hwb, hbb33, herb, houtb⟩ :=
    fillBox_spec (by omega) (by omega) hwa hba33 hera h2
  have hbb00 : boxDistinct gb 0 0 := by
    refine boxDistinct_congr ?_ hba00
    intro i hi j hj
    exact houtb (0 + i) (0 + j) (by omega)
  have hbb66 : boxDistinct gb 6 6 := by
    intro i1 hi1 j1 hj1 i2 hi2 j2 hj2 hne hnz
    refine absurd ?_ hnz
    rw [houtb (6 + i1) (6 + j1) (by omega), houta (6 + i1) (6 + j1) (by omega)]
    exact cell_getEmptyGrid _ _
  obtain ⟨hwc, hbc66, herc, houtc⟩ :=
    fillBox_spec (by omega) (by omega) hwb hbb66 herb h3
  have hbc00 : boxDistinct gc 0 0 := by
    refine boxDistinct_congr ?_ hbb00
    intro i hi j hj
    exact houtc (0 + i) (0 + j) (by omega)
  have hbc33 : boxDistinct gc 3 3 := by
    refine boxDistinct_congr ?_ hbb33
    intro i hi j hj
    exact houtc (3 + i) (3 + j) (by omega)
  have hdiag : ∀ r < 9, ∀ c < 9, cell gc r c ≠ 0 → r / 3 = c / 3 := by
    intro r hr c hc hnz
    by_contra hd
    refine hnz ?_
    rw [houtc r c (by omega), houtb r c (by omega), houta r c (by omega)]
    exact cell_getEmptyGrid r c
  have hcon : consistent gc := by
    intro r1 hr1 c1 hc1 r2 hr2 c2 hc2 hne hunit hnz heq
    have hnz2 : cell gc r2 c2 ≠ 0 := by rw [← heq]; exact hnz
    have hd1 := hdiag r1 hr1 c1 hc1 hnz
    have hd2 := hdiag r2 hr2 c2 hc2 hnz2
    have hsame : r1 / 3 = r2 / 3 ∧ c1 / 3 = c2 / 3 := by
      rcases hunit with hu | hu | hu
      · constructor <;> omega
      · constructor <;> omega
      · exact hu
    have happ : ∀ b : Nat, b = 3 * (r1 / 3) → boxDistinct gc b b → False := by
      intro b hb3 hbd
      refine hbd (r1 - b) (by omega) (c1 - b) (by omega) (r2 - b) (by omega)
        (c2 - b) (by omega) ?_ ?_ ?_
      · intro hp
        have e1 : r1 - b = r2 - b := congrArg Prod.fst hp
        have e2 : c1 - b = c2 - b := congrArg Prod.snd hp
        exact hne (by rw [show r1 = r2 by omega, show c1 = c2 by omega])
      · rw [show b + (r1 - b) = r1 by omega, show b + (c1 - b) = c1 by omega]
        exact hnz
      · rw [show b + (r1 - b) = r1 by omega, show b + (c1 - b) = c1 by omega,
          show b + (r2 - b) = r2 by omega, show b + (c2 - b) = c2 by omega]
        exact heq
    have hd3 : r1 / 3 = 0 ∨ r1 / 3 = 1 ∨ r1 / 3 = 2 := by omega
    rcases hd3 with hd | hd | hd
    · exact happ 0 (by omega) hbc00
    · exact happ 3 (by omega) hbc33
    · exact happ 6 (by omega) hbc66
  exact ⟨hcon, herc, hwc⟩

theorem fullBoard_eq {rs : List Nat} {s : Grid} {rs1 : List Nat}
    (h : generateFullBoard rs = some (s, rs1)) :
    ∃ ga rsa gb rsb gc rsc,
      fillBox getEmptyGrid 0 0 rs = some (ga, rsa) ∧
      fillBox ga 3 3 rsa = some (gb, rsb) ∧
      fillBox gb 6 6 rsb = some (gc, rsc) ∧
      s = (solveGrid gc).2 ∧ rs1 = rsc := by
  unfold generateFullBoard at h
  simp only [Option.bind_eq_bind, Option.bind_eq_some, Option.pure_def,
    Option.some.injEq, Prod.mk.injEq] at h
  obtain ⟨⟨ga, rsa⟩, ha, ⟨gb, rsb⟩, hb, ⟨gc, rsc⟩, hc, hs4, hrs⟩ := h
  exact ⟨ga, rsa, gb, rsb, gc, rsc, ha, hb, hc, hs4.symm, hrs.symm⟩

theorem generateFullBoard_good {rs : List Nat} {s : Grid} {rs1 : List Nat}
    (h : generateFullBoard rs = some (s, rs1)) : GoodGrid s := by
  obtain ⟨ga, rsa, gb, rsb, gc, rsc, h1, h2, h3, hs4, _⟩ := fullBoard_eq h
  rw [hs4]
  exact solveGridAux_good 82 gc (seeded_good h1 h2 h3)

/-- C2: for every call of `generateSudokuPuzzle` that returns a pair, if the
solve step after seeding the three diagonal boxes succeeded — equivalently,
the returned solution grid is complete (no cell is 0), the requirement the
claim itself states — then the solution is a complete valid grid: every row,
every column and every 3 x 3 box contains each of 1..9 exactly once. -/
theorem c2_generated_solution_valid (clues : Nat) (rs : List Nat) (p s : Grid)
    (h : generateSudokuPuzzle clues rs = some (p, s))
    (hs : isCompleteGrid s) : isValidComplete s := by
  obtain ⟨rs1, shuffled, rs2, hfb, _, _⟩ := generate_eq h
  have hg := generateFullBoard_good hfb
  exact valid_of_complete_consistent hs hg.1 hg.2.1

/-- Witness for C2 at the concrete run `generateSudokuPuzzle 81 rsSample`. -/
theorem c2_generated_solution_valid_witness :
    generateSudokuPuzzle 81 rsSample = some (sampleSolution, sampleSolution) ∧
    isCompleteGrid sampleSolution ∧ isValidComplete sampleSolution :=
  ⟨sampleRun, by decide,
    c2_generated_solution_valid 81 rsSample sampleSolution sampleSolution
      sampleRun (by decide)⟩

-- ## the shuffle is a permutation; clue counting (C7)

theorem list_count_set {α : Type} [DecidableEq α] :
    ∀ (l : List α) (n : Nat) (a d x : α), n < l.length →
      (l.set n a).count x + (if l.getD n d = x then 1 else 0) =
      l.count x + (if a = x then 1 else 0) := by
  intro l
  induction l with
  | nil => intro n a d x h; simp at h
  | cons y ys ih =>
    intro n a d x h
    cases n with
    | zero =>
      show (a :: ys).count x + (if y = x then 1 else 0) =
        (y :: ys).count x + (if a = x then 1 else 0)
      rw [List.count_cons, List.count_cons]
      simp only [beq_iff_eq]
      omega
    | succ m =>
      have hlt : m < ys.length := by simpa using h
      show (y :: ys.set m a).count x + (if ys.getD m d = x then 1 else 0) =
        (y :: ys).count x + (if a = x then 1 else 0)
      rw [List.count_cons, List.count_cons]
      have hih := ih m a d x hlt
      simp only [beq_iff_eq]
      omega

theorem swapAt_perm (l : List (Nat × Nat)) (i j : Nat)
    (hi : i < l.length) (hj : j < l.length) : (swapAt l i j).Perm l := by
  unfold swapAt
  by_cases hij : i = j
  · subst hij
    rw [List.set_set, list_set_getD_self]
  · rw [List.perm_iff_count]
    intro x
    have h1 := list_count_set l i (l.getD j (0, 0)) (0, 0) x hi
    have h2 := list_count_set (l.set i (l.getD j (0, 0))) j (l.getD i (0, 0))
      (0, 0) x (by rw [List.length_set]; exact hj)
    rw [list_getD_set_ne _ _ _ _ _ hij] at h2
    split_ifs at h1 h2 <;> omega

theorem shuffleAux_perm : ∀ (n : Nat) (l : List (Nat × Nat)) (rs : List Nat)
    {l' : List (Nat × Nat)} {rs' : List Nat},
    n < l.length → shuffleAux n l rs = some (l', rs') → l'.Perm l := by
  intro n
  induction n with
  | zero =>
    intro l rs l' rs' _ h
    have h2 := Option.some.inj h
    have hl : l = l' := congrArg Prod.fst h2
    rw [← hl]
  | succ m ih =>
    intro l rs l' rs' hlen h
    cases rs with
    | nil =>
      rw [shuffleAux] at h
      exact Option.noConfusion h
    | cons r rest =>
      rw [shuffleAux] at h
      have hj : r % (m + 2) < l.length := by
        have := Nat.mod_lt r (show 0 < m + 2 by omega)
        omega
      have hswap : (swapAt l (m + 1) (r % (m + 2))).Perm l :=
        swapAt_perm l (m + 1) (r % (m + 2)) hlen hj
      have hlen2 : m < (swapAt l (m + 1) (r % (m + 2))).length := by
        unfold swapAt
        rw [List.length_set, List.length_set]
        omega
      exact (ih _ rest hlen2 h).trans hswap

theorem allPositions_length : allPositions.length = 81 := by decide

theorem allPositions_nodup : allPositions.Nodup := by decide

theorem allPositions_mem_bound : ∀ p ∈ allPositions, p.1 < 9 ∧ p.2 < 9 := by
  decide

theorem clueCount_eq_81 {g : Grid} (h : isCompleteGrid g) : clueCount g = 81 := by
  have e : clueCount g = allPositions.length := by
    unfold clueCount
    rw [List.countP_eq_length]
    intro p hp
    obtain ⟨h1, h2⟩ := allPositions_mem_bound p hp
    rw [Bool.not_eq_true', beq_eq_false_iff_ne]
    exact h p.1 h1 p.2 h2
  rw [e, allPositions_length]

theorem list_countP_flip_one {α : Type} {f f' : α → Bool} :
    ∀ (l : List α) (p0 : α), l.Nodup → p0 ∈ l →
      (∀ q ∈ l, q ≠ p0 → f' q = f q) → f p0 = true → f' p0 = false →
      l.countP f' + 1 = l.countP f := by
  intro l
  induction l with
  | nil => intro p0 _ hmem; simp at hmem
  | cons y ys ih =>
    intro p0 hnd hmem hcong hf hf'
    rw [List.countP_cons, List.countP_cons]
    rcases List.mem_cons.mp hmem with heq | hmem2
    · subst heq
      rw [hf, hf']
      have hnotin : p0 ∉ ys := (List.nodup_cons.mp hnd).1
      have hcount : ys.countP f' = ys.countP f := by
        refine List.countP_congr ?_
        intro a ha
        have hane : a ≠ p0 := fun he => hnotin (he ▸ ha)
        rw [hcong a (List.mem_cons_of_mem _ ha) hane]
      simp [hcount]
    · have hyne : y ≠ p0 := by
        intro he
        subst he
        exact (List.nodup_cons.mp hnd).1 hmem2
      rw [hcong y (List.mem_cons_self _ _) hyne]
      have hih := ih p0 (List.nodup_cons.mp hnd).2 hmem2
        (fun q hq hne => hcong q (List.mem_cons_of_mem _ hq) hne) hf hf'
      by_cases hfy : f y = true <;> simp [hfy] <;> omega

theorem mem_allPositions {r c : Nat} (hr : r < 9) (hc : c < 9) :
    (r, c) ∈ allPositions := by
  unfold allPositions
  simp only [List.mem_flatMap, List.mem_map, List.mem_range]
  exact ⟨r, hr, c, hc, rfl⟩

theorem clueCount_setCell_zero {g : Grid} (hw : WF g) {r c : Nat}
    (hr : r < 9) (hc : c < 9) (hnz : cell g r c ≠ 0) :
    clueCount (setCell g r c 0) + 1 = clueCount g := by
  unfold clueCount
  refine list_countP_flip_one allPositions (r, c) allPositions_nodup
    (mem_allPositions hr hc) ?_ ?_ ?_
  · intro q hq hne
    have hcne : cell (setCell g r c 0) q.1 q.2 = cell g q.1 q.2 := by
      refine cell_setCell_ne g r c q.1 q.2 0 ?_
      intro hp
      rcases q with ⟨q1, q2⟩
      simp only at hp
      exact hne (by rw [hp.1, hp.2])
    rw [hcne]
  · rw [Bool.not_eq_true', beq_eq_false_iff_ne]
    exact hnz
  · rw [cell_setCell_self_of_WF hw hr hc 0]
    rfl

theorem removeCells_spec : ∀ (ps : List (Nat × Nat)) (puzzle : Grid)
    (att rem : Nat) {pf : Grid} {att' rem' : Nat},
    removeCells ps puzzle att rem = (pf, att', rem') →
    ps.Nodup → WF puzzle →
    (∀ q ∈ ps, q.1 < 9 ∧ q.2 < 9) →
    (∀ q ∈ ps, cell puzzle q.1 q.2 ≠ 0) →
    rem' ≤ rem ∧ att' ≤ att ∧
    clueCount pf + (rem - rem') = clueCount puzzle ∧
    (0 < rem' → 0 < att' → (rem - rem') + (att - att') = ps.length) := by
  intro ps
  induction ps with
  | nil =>
    intro puzzle att rem pf att' rem' h _ _ _ _
    simp only [removeCells, Prod.mk.injEq] at h
    obtain ⟨rfl, rfl, rfl⟩ := h
    exact ⟨Nat.le_refl _, Nat.le_refl _, by omega, fun _ _ => by simp⟩
  | cons q rest ih =>
    rcases q with ⟨a, b⟩
    intro puzzle att rem pf att' rem' h hnd hw hbound hnz
    have hab : a < 9 ∧ b < 9 := hbound (a, b) (List.mem_cons_self _ _)
    have h0 : cell puzzle a b ≠ 0 := hnz (a, b) (List.mem_cons_self _ _)
    simp only [removeCells] at h
    by_cases ht : rem ≤ 0
    · rw [if_pos ht] at h
      simp only [Prod.mk.injEq] at h
      obtain ⟨rfl, rfl, rfl⟩ := h
      exact ⟨Nat.le_refl _, Nat.le_refl _, by omega, fun hr _ => by omega⟩
    · rw [if_neg ht, if_neg h0] at h
      by_cases hcs : countSolutions (setCell puzzle a b 0) 0 ≠ 1
      · rw [if_pos hcs, restore_eq] at h
        by_cases hbrk : att - 1 ≤ 0 ∧ 0 < rem
        · rw [if_pos hbrk] at h
          simp only [Prod.mk.injEq] at h
          obtain ⟨rfl, rfl, rfl⟩ := h
          exact ⟨Nat.le_refl _, by omega, by omega, fun _ ha' => by omega⟩
        · rw [if_neg hbrk] at h
          obtain ⟨e1, e2, e3, e4⟩ := ih puzzle (att - 1) rem h
            (List.nodup_cons.mp hnd).2 hw
            (fun p hp => hbound p (List.mem_cons_of_mem _ hp))
            (fun p hp => hnz p (List.mem_cons_of_mem _ hp))
          refine ⟨e1, by omega, e3, ?_⟩
          intro hr ha'
          have he4 := e4 hr ha'
          simp only [List.length_cons]
          omega
      · rw [if_neg hcs] at h
        have hw1 : WF (setCell puzzle a b 0) := WF_setCell hw a b 0
        have hnz1 : ∀ p ∈ rest, cell (setCell puzzle a b 0) p.1 p.2 ≠ 0 := by
          intro p hp
          have hqne : p ≠ (a, b) := by
            intro he
            subst he
            exact (List.nodup_cons.mp hnd).1 hp
          have hcne : cell (setCell puzzle a b 0) p.1 p.2 = cell puzzle p.1 p.2 := by
            refine cell_setCell_ne puzzle a b p.1 p.2 0 ?_
            intro hpp
            rcases p with ⟨p1, p2⟩
            simp only at hpp
            exact hqne (by rw [hpp.1, hpp.2])
          rw [hcne]
          exact hnz p (List.mem_cons_of_mem _ hp)
        obtain ⟨e1, e2, e3, e4⟩ := ih (setCell puzzle a b 0) att (rem - 1) h
          (List.nodup_cons.mp hnd).2 hw1
          (fun p hp => hbound p (List.mem_cons_of_mem _ hp)) hnz1
        have hdec : clueCount (setCell puzzle a b 0) + 1 = clueCount puzzle :=
          clueCount_setCell_zero hw hab.1 hab.2 h0
        refine ⟨by omega, e2, by omega, ?_⟩
        intro hr ha'
        have he4 := e4 hr ha'
        simp only [List.length_cons]
        omega

/-- Partial clue-count characterisation, for a requested clue count in
19..81 only: a returning run with a successfully solved board has exactly
`cluesCount` non-zero cells when the removal loop drove `cellsToRemove` to 0,
and strictly more — never fewer — exactly when the attempt budget was
exhausted first (final `attempts = 0`, the degraded path).  `generationTrace`
is the same run exposing the loop's final `(puzzle, attempts, cellsToRemove)`
state.  For requested counts 15..18 the loop has a third exit — all 81
positions consumed with both counters positive — which this dichotomy does
not cover and which cannot be excluded there, so this theorem does not extend
below 19. -/
theorem clueCount_exact_or_degraded (clues : Nat) (rs : List Nat) (p s : Grid)
    (h : generateSudokuPuzzle clues rs = some (p, s))
    (hs : isCompleteGrid s) (h19 : 19 ≤ clues) (h81 : clues ≤ 81) :
    ∃ att rem, generationTrace clues rs = some (p, att, rem) ∧
      clueCount p = clues + rem ∧ (rem = 0 ∨ (0 < rem ∧ att = 0)) := by
  obtain ⟨rs1, shuffled, rs2, hfb, hsh, hp⟩ := generate_eq h
  have hlenP : allPositions.length - 1 < allPositions.length := by
    rw [allPositions_length]
    omega
  have hperm : shuffled.Perm allPositions := shuffleAux_perm _ _ _ hlenP hsh
  have hnd : shuffled.Nodup := hperm.symm.nodup allPositions_nodup
  have hlen : shuffled.length = 81 := by
    rw [hperm.length_eq, allPositions_length]
  have hbound : ∀ q ∈ shuffled, q.1 < 9 ∧ q.2 < 9 := fun q hq =>
    allPositions_mem_bound q (hperm.subset hq)
  have hwfs : WF s := (generateFullBoard_good hfb).2.2
  have hnzs : ∀ q ∈ shuffled, cell s q.1 q.2 ≠ 0 := fun q hq =>
    hs q.1 (hbound q hq).1 q.2 (hbound q hq).2
  rcases hrc : removeCells shuffled s (if clues > 25 then 5 else 20)
    (81 - clues) with ⟨pf, att', rem'⟩
  obtain ⟨e1, e2, e3, e4⟩ := removeCells_spec shuffled s _ _ hrc hnd hwfs hbound hnzs
  have htr := trace_eq clues hfb hsh
  rw [hrc] at htr
  have hpp : p = pf := by rw [hp, hrc]
  subst hpp
  have h81c : clueCount s = 81 := clueCount_eq_81 hs
  refine ⟨att', rem', htr, by omega, ?_⟩
  by_cases hr0 : rem' = 0
  · exact Or.inl hr0
  · right
    refine ⟨by omega, ?_⟩
    by_contra ha0
    have he4 := e4 (by omega) (by omega)
    rw [hlen] at he4
    by_cases hc25 : clues > 25
    · rw [if_pos hc25] at e2 he4
      omega
    · rw [if_neg hc25] at e2 he4
      omega

/-- The clue-count characterisation exercised at the concrete run
`generateSudokuPuzzle 81 rsSample` (exact path: final `cellsToRemove` is 0
and the clue count is exactly 81). -/
theorem clueCount_exact_or_degraded_sample :
    ∃ att rem, generationTrace 81 rsSample = some (sampleSolution, att, rem) ∧
      clueCount sampleSolution = 81 + rem ∧ (rem = 0 ∨ (0 < rem ∧ att = 0)) :=
  clueCount_exact_or_degraded 81 rsSample sampleSolution sampleSolution
    sampleRun (by decide) (by omega) (by omega)
